import Mathlib

/-!
The connection handler of the libresapi local socket server.

A shallow embedding of `ApiLocalConnectionHandler::handlePendingRequests`
(`libresapi/src/api/ApiServerLocal.cpp`) together with the part of the Qt
socket interface it calls (`canReadLine`, `readLine`, the two `write`
overloads), and theorems about the request framing it implements.
-/

namespace resource_api

/-- One 8-bit character of a `QByteArray` / `std::string`. -/
abbrev Byte := Fin 256

/-- The line terminator `'\n'`. -/
def NL : Byte := 10

/-- The string terminator `'\0'`. -/
def NUL : Byte := 0

/-- The characters a zero-terminated `const char*` denotes: those before the
first NUL. This is the conversion made by `std::string(const char*)`, by
`std::string::operator=(const char*)` and by `qstrlen`. -/
def cstr (data : List Byte) : List Byte :=
  data.takeWhile (fun b => b != NUL)

/-- The members of `enum State {WAITING_PATH, WAITING_DATA}`. -/
inductive State where
  | WAITING_PATH
  | WAITING_DATA
deriving DecidableEq

/-- Modelled from the spec: the class `resource_api::Request` (declared in
`ApiTypes.h`, not among the sources) as the record of section 3,
`{ path: string, payload: opaque-JSON-text }`: `path` holds the argument of
`setPath`, `payload` the argument of `JsonStream::setJsonString`. -/
structure Request where
  path : List Byte
  payload : List Byte
deriving DecidableEq

/-- Modelled from the spec: `ApiServer::handleRequest` (declared in
`ApiServer.h`, not among the sources), the Dispatcher of section 6:
synchronous and total, it returns the response text. The server may keep
state of its own (type `σ`) between calls. -/
structure ApiServer (σ : Type) where
  handleRequest : σ → Request → List Byte × σ

/-- The socket of one connection: the bytes received and not yet read, the
bytes accepted by `write` so far, and the outcome of the coming `write`
calls (`true`: that call fails and returns -1; past the end of the list every
call succeeds). -/
structure QLocalSocket where
  rbuf : List Byte
  sent : List Byte
  wfail : List Bool
deriving DecidableEq

/-- The Qt call `QIODevice::canReadLine`: a `'\n'` is in the read buffer. -/
def QLocalSocket.canReadLine (s : QLocalSocket) : Bool :=
  s.rbuf.contains NL

/-- Split a buffer after its first `'\n'`; without one, everything is taken. -/
def splitLine : List Byte → List Byte × List Byte
  | [] => ([], [])
  | b :: bs =>
    if b = NL then ([b], bs)
    else ((b :: (splitLine bs).1), (splitLine bs).2)

/-- The Qt call `QIODevice::readLine()` (no size limit): the bytes up to and
including the first `'\n'` are removed from the buffer and returned. -/
def QLocalSocket.readLine (s : QLocalSocket) : List Byte × QLocalSocket :=
  ((splitLine s.rbuf).1, { s with rbuf := (splitLine s.rbuf).2 })

/-- The Qt call `QIODevice::write(const char* data, qint64 len)` with `data`
the `len` bytes given: the number of bytes written, or -1 on failure. -/
def QLocalSocket.write (s : QLocalSocket) (data : List Byte) : Int × QLocalSocket :=
  match s.wfail with
  | true :: rest => (-1, { s with wfail := rest })
  | false :: rest => (data.length, { s with sent := s.sent ++ data, wfail := rest })
  | [] => (data.length, { s with sent := s.sent ++ data })

/-- The Qt call `QIODevice::write(const char* data)`, which is
`write(data, qstrlen(data))`: `data` is read as a zero-terminated string. -/
def QLocalSocket.writeCStr (s : QLocalSocket) (data : List Byte) : Int × QLocalSocket :=
  s.write (cstr data)

/-- The calls a handler makes, with their arguments, in order. -/
inductive Effect where
  /-- The call `mLocalSocket->readLine()`, which returned `line`. -/
  | readLine (line : List Byte)
  /-- The call `mApiServer->handleRequest(req)`, which returned `result`. -/
  | handleRequest (req : Request) (result : List Byte)
  /-- The call `mLocalSocket->write(data, len)`, with the `len` bytes passed. -/
  | write (data : List Byte)
  /-- The call `mLocalSocket->write(literal)`, with the string literal passed. -/
  | writeCStr (literal : List Byte)
deriving DecidableEq

/-- The class `ApiLocalConnectionHandler`: its members `mState`, `reqPath`
and `mLocalSocket`, the state of the server behind `mApiServer`, and the log
of the calls made so far. -/
structure ApiLocalConnectionHandler (σ : Type) where
  mState : State
  reqPath : List Byte
  mLocalSocket : QLocalSocket
  mApiServer : σ
  trace : List Effect
deriving DecidableEq

/-- The constructor: `mState(WAITING_PATH)`, `reqPath` default-constructed
(empty), on a socket that has received nothing yet. -/
def ApiLocalConnectionHandler.new {σ : Type} (api : σ) (wfail : List Bool) :
    ApiLocalConnectionHandler σ :=
  { mState := State.WAITING_PATH, reqPath := [],
    mLocalSocket := { rbuf := [], sent := [], wfail := wfail },
    mApiServer := api, trace := [] }

/-- The block under the label `readPath:` (lines 75-76):
`reqPath = mLocalSocket->readLine().constData(); mState = WAITING_DATA;`. -/
def readPath {σ : Type} (c : ApiLocalConnectionHandler σ) : ApiLocalConnectionHandler σ :=
  let r := c.mLocalSocket.readLine
  { c with reqPath := cstr r.1, mState := State.WAITING_DATA, mLocalSocket := r.2,
           trace := c.trace ++ [Effect.readLine r.1] }

/-- The statements of lines 90-97: read the payload line, build the request,
call the server, write the result and the terminator, go to `WAITING_PATH`. -/
def serveData {σ : Type} (d : ApiServer σ) (c : ApiLocalConnectionHandler σ) :
    ApiLocalConnectionHandler σ :=
  let r := c.mLocalSocket.readLine
  let req : Request := { path := c.reqPath, payload := cstr r.1 }
  let h := d.handleRequest c.mApiServer req
  let w1 := r.2.write h.1
  let w2 := w1.2.writeCStr [NL, NUL]
  { c with mState := State.WAITING_PATH, mLocalSocket := w2.2, mApiServer := h.2,
           trace := c.trace ++ [Effect.readLine r.1, Effect.handleRequest req h.1,
                                Effect.write h.1, Effect.writeCStr [NL, NUL]] }

/-- The code from `case WAITING_DATA:` on (lines 86-109), entered by the
switch, by fall-through, or again after `goto readPath`. Each `goto` spends
one unit of `fuel`; `none` means the fuel ran out. -/
def caseWaitingData {σ : Type} (d : ApiServer σ) :
    Nat → ApiLocalConnectionHandler σ → Option (ApiLocalConnectionHandler σ)
  | 0, _ => none
  | fuel + 1, c =>
    if c.mLocalSocket.canReadLine then
      let c1 := serveData d c
      if c1.mLocalSocket.canReadLine then
        -- goto readPath; then fall through to case WAITING_DATA
        caseWaitingData d fuel (readPath c1)
      else
        some c1 -- break
    else
      some c

/-- The slot `ApiLocalConnectionHandler::handlePendingRequests` (lines 66-111).
The fuel is one more than the number of buffered bytes. -/
def handlePendingRequests {σ : Type} (d : ApiServer σ) (c : ApiLocalConnectionHandler σ) :
    Option (ApiLocalConnectionHandler σ) :=
  let fuel := c.mLocalSocket.rbuf.length + 1
  match c.mState with
  | State.WAITING_PATH =>
    if c.mLocalSocket.canReadLine then
      caseWaitingData d fuel (readPath c) -- no break: falls through
    else
      caseWaitingData d fuel c
  | State.WAITING_DATA => caseWaitingData d fuel c

/-- The socket receives `chunk`. -/
def receive {σ : Type} (c : ApiLocalConnectionHandler σ) (chunk : List Byte) :
    ApiLocalConnectionHandler σ :=
  { c with mLocalSocket := { c.mLocalSocket with rbuf := c.mLocalSocket.rbuf ++ chunk } }

/-- One delivery: the socket receives `chunk` and emits `readyRead()`, which
is connected to `handlePendingRequests` (line 57). -/
def deliver {σ : Type} (d : ApiServer σ) (c : ApiLocalConnectionHandler σ)
    (chunk : List Byte) : Option (ApiLocalConnectionHandler σ) :=
  handlePendingRequests d (receive c chunk)

/-- A sequence of deliveries, one chunk after the other. -/
def deliverAll {σ : Type} (d : ApiServer σ) :
    ApiLocalConnectionHandler σ → List (List Byte) → Option (ApiLocalConnectionHandler σ)
  | c, [] => some c
  | c, chunk :: chunks =>
    match deliver d c chunk with
    | none => none
    | some c1 => deliverAll d c1 chunks

/-- The requests passed to the server, in call order. -/
def calls : List Effect → List Request
  | [] => []
  | Effect.handleRequest req _ :: es => req :: calls es
  | _ :: es => calls es

/-- A server that answers every request with its path. -/
def echoPath : ApiServer Unit :=
  { handleRequest := fun s req => (req.path, s) }

/-- Complete lines put end to end: each line body followed by `'\n'`. -/
def unlines : List (List Byte) → List Byte
  | [] => []
  | l :: ls => l ++ NL :: unlines ls

/-- The handler with its read buffer replaced. -/
def withRbuf {σ : Type} (c : ApiLocalConnectionHandler σ) (r : List Byte) :
    ApiLocalConnectionHandler σ :=
  { c with mLocalSocket := { c.mLocalSocket with rbuf := r } }

/-- The effect of `readPath` on everything but the read buffer, for a line
already taken out of it. -/
def takePath {σ : Type} (c : ApiLocalConnectionHandler σ) (line : List Byte) :
    ApiLocalConnectionHandler σ :=
  { c with reqPath := cstr line, mState := State.WAITING_DATA,
           trace := c.trace ++ [Effect.readLine line] }

/-- The effect of `serveData` on everything but the read buffer, for a line
already taken out of it. -/
def takeData {σ : Type} (d : ApiServer σ) (c : ApiLocalConnectionHandler σ)
    (line : List Byte) : ApiLocalConnectionHandler σ :=
  let req : Request := { path := c.reqPath, payload := cstr line }
  let h := d.handleRequest c.mApiServer req
  let w1 := c.mLocalSocket.write h.1
  let w2 := w1.2.writeCStr [NL, NUL]
  { c with mState := State.WAITING_PATH, mLocalSocket := w2.2, mApiServer := h.2,
           trace := c.trace ++ [Effect.readLine line, Effect.handleRequest req h.1,
                                Effect.write h.1, Effect.writeCStr [NL, NUL]] }

/-- What the handler does with one complete line, by state. -/
def stepLine {σ : Type} (d : ApiServer σ) (c : ApiLocalConnectionHandler σ)
    (line : List Byte) : ApiLocalConnectionHandler σ :=
  match c.mState with
  | State.WAITING_PATH => takePath c line
  | State.WAITING_DATA => takeData d c line

/-- The handler after the complete lines with bodies `ls`, taken in order. -/
def stepLines {σ : Type} (d : ApiServer σ) :
    ApiLocalConnectionHandler σ → List (List Byte) → ApiLocalConnectionHandler σ
  | c, [] => c
  | c, l :: ls => stepLines d (stepLine d c (l ++ [NL])) ls

/-- The lines returned by the `readLine` calls of a trace, in call order. -/
def linesRead : List Effect → List (List Byte)
  | [] => []
  | Effect.readLine line :: es => line :: linesRead es
  | _ :: es => linesRead es

/-- The request the handler builds for a path `p` and a payload `j` that
arrive as the lines `p\n` and `j\n`: each text is what `readLine` returns,
read as a zero-terminated string. -/
def requestOf (pj : List Byte × List Byte) : Request :=
  { path := cstr (pj.1 ++ [NL]), payload := cstr (pj.2 ++ [NL]) }

/-- The bytes on the wire for the requests `pairs`: two lines each. -/
def requestLines : List (List Byte × List Byte) → List Byte
  | [] => []
  | pj :: rest => pj.1 ++ NL :: (pj.2 ++ NL :: requestLines rest)

/-- The line bodies of the requests `pairs`: path, payload, path, ... -/
def pairBodies : List (List Byte × List Byte) → List (List Byte)
  | [] => []
  | pj :: rest => pj.1 :: pj.2 :: pairBodies rest

/-- The bytes the two `write` calls of one response (lines 95-96) put on a
socket that accepts them. -/
def frame (result : List Byte) : List Byte :=
  ((({ rbuf := [], sent := [], wfail := [] } : QLocalSocket).write
    result).2.writeCStr [NL, NUL]).2.sent

/-- The calls made for the requests `pairs` served one after the other by a
server in state `s`. -/
def serveTrace {σ : Type} (d : ApiServer σ) : σ → List (List Byte × List Byte) → List Effect
  | _, [] => []
  | s, pj :: rest =>
    let h := d.handleRequest s (requestOf pj)
    [Effect.readLine (pj.1 ++ [NL]), Effect.readLine (pj.2 ++ [NL]),
     Effect.handleRequest (requestOf pj) h.1,
     Effect.write h.1, Effect.writeCStr [NL, NUL]] ++ serveTrace d h.2 rest

/-- The responses to the requests `pairs` served one after the other by a
server in state `s`, each as framed by the handler, end to end. -/
def serveSent {σ : Type} (d : ApiServer σ) : σ → List (List Byte × List Byte) → List Byte
  | _, [] => []
  | s, pj :: rest =>
    let h := d.handleRequest s (requestOf pj)
    frame h.1 ++ serveSent d h.2 rest

/-- The state of the server after the requests `pairs`. -/
def serveState {σ : Type} (d : ApiServer σ) : σ → List (List Byte × List Byte) → σ
  | s, [] => s
  | s, pj :: rest => serveState d (d.handleRequest s (requestOf pj)).2 rest

/-- Where a connection stands in the cycle read path, read payload,
dispatch, write result, write terminator. -/
inductive Phase where
  | idle
  | pathRead (path : List Byte)
  | dataRead (path payload : List Byte)
  | dispatched (result : List Byte)
  | resultWritten
deriving DecidableEq

/-- The one call allowed in each phase, and the phase it leads to. -/
def Phase.next : Phase → Effect → Option Phase
  | Phase.idle, Effect.readLine l => some (Phase.pathRead (cstr l))
  | Phase.pathRead p, Effect.readLine l => some (Phase.dataRead p (cstr l))
  | Phase.dataRead p j, Effect.handleRequest req res =>
    if req = { path := p, payload := j } then some (Phase.dispatched res) else none
  | Phase.dispatched res, Effect.write data =>
    if data = res then some Phase.resultWritten else none
  | Phase.resultWritten, Effect.writeCStr _ => some Phase.idle
  | _, _ => none

/-- Run a trace through the cycle; `none` when a call comes out of turn. -/
def followCycle : Phase → List Effect → Option Phase
  | p, [] => some p
  | p, e :: es =>
    match p.next e with
    | none => none
    | some q => followCycle q es

/-- The phase a handler is in between two invocations. -/
def phaseOf {σ : Type} (c : ApiLocalConnectionHandler σ) : Phase :=
  match c.mState with
  | State.WAITING_PATH => Phase.idle
  | State.WAITING_DATA => Phase.pathRead c.reqPath

/-- Two handlers that differ at most in a stored path left over in state
`WAITING_PATH`. -/
def agreeUpToPath {σ : Type} (c1 c2 : ApiLocalConnectionHandler σ) : Prop :=
  c2 = c1 ∨ (c1.mState = State.WAITING_PATH ∧ c2 = { c1 with reqPath := c2.reqPath })

/-- Two handlers that differ at most in what their sockets have sent and in
the outcome of their coming writes. -/
def agreeUpToWrites {σ : Type} (c1 c2 : ApiLocalConnectionHandler σ) : Prop :=
  c2.mState = c1.mState ∧ c2.reqPath = c1.reqPath ∧
  c2.mLocalSocket.rbuf = c1.mLocalSocket.rbuf ∧
  c2.mApiServer = c1.mApiServer ∧ c2.trace = c1.trace

/-- The requests of path `a`, payload `{1}` and of path `b`, payload `{2}`. -/
def twoRequests : List (List Byte × List Byte) :=
  [([97], [123, 49, 125]), ([98], [123, 50, 125])]

/-- The bytes `a\n{1}\nb\n{2}\n`. -/
def twoRequestsBytes : List Byte :=
  [97, 10, 123, 49, 125, 10, 98, 10, 123, 50, 125, 10]

/-- A server that answers every request with `{"ok":true}`. -/
def okServer : ApiServer Unit :=
  { handleRequest := fun s _ => ([123, 34, 111, 107, 34, 58, 116, 114, 117, 101, 125], s) }

/-- The slot `handlePendingRequests` with the number of `goto readPath` jumps
limited to `fuel - 1` instead of the number of buffered bytes. -/
def handlePendingRequestsWithin {σ : Type} (d : ApiServer σ) (fuel : Nat)
    (c : ApiLocalConnectionHandler σ) : Option (ApiLocalConnectionHandler σ) :=
  match c.mState with
  | State.WAITING_PATH =>
    if c.mLocalSocket.canReadLine then
      caseWaitingData d fuel (readPath c)
    else
      caseWaitingData d fuel c
  | State.WAITING_DATA => caseWaitingData d fuel c

/-- The number of `write(data, len)` calls in a trace: the results written. -/
def resultWrites : List Effect → Nat
  | [] => 0
  | Effect.write _ :: es => resultWrites es + 1
  | _ :: es => resultWrites es

/-- The number of `write(literal)` calls in a trace: the terminators written. -/
def terminatorWrites : List Effect → Nat
  | [] => 0
  | Effect.writeCStr _ :: es => terminatorWrites es + 1
  | _ :: es => terminatorWrites es

/-- The counts kept in step by the state machine: the state is
`WAITING_DATA` exactly after an odd number of lines read, and the server
calls, the result writes and the terminator writes each number half the
lines read, rounded down. -/
def parityInv {σ : Type} (c : ApiLocalConnectionHandler σ) : Prop :=
  (c.mState = State.WAITING_DATA ↔ (linesRead c.trace).length % 2 = 1) ∧
  (calls c.trace).length = (linesRead c.trace).length / 2 ∧
  resultWrites c.trace = (linesRead c.trace).length / 2 ∧
  terminatorWrites c.trace = (linesRead c.trace).length / 2

/-- Decoding of a frame by its reader: the bytes before the first line
terminator. -/
def decodeFrame (bytes : List Byte) : List Byte :=
  bytes.takeWhile (fun b => b != NL)

/-- The two signals of the socket that the constructor connects (lines
56-57): `readyRead()`, emitted once `chunk` has arrived, and `disconnected()`. -/
inductive Signal where
  | readyRead (chunk : List Byte)
  | disconnected
deriving DecidableEq

/-- A connection over its life: the handler object while it exists, and after
its deletion what it leaves behind, namely the bytes sent, the state of the
server and the log of the calls made. -/
inductive Connection (σ : Type) where
  | live (c : ApiLocalConnectionHandler σ)
  | deleted (sent : List Byte) (api : σ) (trace : List Effect)
deriving DecidableEq

/-- The destructor (lines 60-64): `mLocalSocket->close(); delete mLocalSocket;`.
The socket goes with the bytes of its read buffer; no other call is made. -/
def ApiLocalConnectionHandler.destructor {σ : Type} (c : ApiLocalConnectionHandler σ) :
    Connection σ :=
  Connection.deleted c.mLocalSocket.sent c.mApiServer c.trace

/-- The Qt slot `QObject::deleteLater()`: the object is deleted, its destructor
run, when control returns to the event loop. -/
def ApiLocalConnectionHandler.deleteLater {σ : Type} (c : ApiLocalConnectionHandler σ) :
    Connection σ :=
  c.destructor

/-- One signal of the socket, as connected in the constructor: `readyRead()`
to `handlePendingRequests()` (line 57), `disconnected()` to `deleteLater()`
(line 56). A deleted handler receives no signal. -/
def Connection.signal {σ : Type} (d : ApiServer σ) :
    Connection σ → Signal → Option (Connection σ)
  | Connection.live c, Signal.readyRead chunk =>
    match deliver d c chunk with
    | none => none
    | some c1 => some (Connection.live c1)
  | Connection.live c, Signal.disconnected => some c.deleteLater
  | Connection.deleted sent api trace, _ => some (Connection.deleted sent api trace)

/-- A sequence of signals, one after the other. -/
def Connection.signals {σ : Type} (d : ApiServer σ) :
    Connection σ → List Signal → Option (Connection σ)
  | k, [] => some k
  | k, sig :: sigs =>
    match Connection.signal d k sig with
    | none => none
    | some k1 => Connection.signals d k1 sigs

/-! ## Lines, buffers and the socket calls -/

theorem NL_ne_NUL : NL ≠ NUL := by decide

theorem canReadLine_iff (s : QLocalSocket) : s.canReadLine = true ↔ NL ∈ s.rbuf := by
  simp [QLocalSocket.canReadLine]

theorem canReadLine_false_iff (s : QLocalSocket) : s.canReadLine = false ↔ NL ∉ s.rbuf := by
  simp [QLocalSocket.canReadLine]

theorem splitLine_line (l rest : List Byte) (hl : NL ∉ l) :
    splitLine (l ++ NL :: rest) = (l ++ [NL], rest) := by
  induction l with
  | nil => simp [splitLine]
  | cons b bs ih =>
    have hb : b ≠ NL := fun h => hl (by simp [h])
    have hbs : NL ∉ bs := fun h => hl (by simp [h])
    simp [splitLine, hb, ih hbs]

theorem withRbuf_self {σ : Type} (c : ApiLocalConnectionHandler σ) :
    withRbuf c c.mLocalSocket.rbuf = c := rfl

theorem withRbuf_withRbuf {σ : Type} (c : ApiLocalConnectionHandler σ) (a b : List Byte) :
    withRbuf (withRbuf c a) b = withRbuf c b := rfl

theorem write_withRbuf (s : QLocalSocket) (r data : List Byte) :
    ({ s with rbuf := r }.write data).2 = { (s.write data).2 with rbuf := r } := by
  unfold QLocalSocket.write
  rcases s with ⟨rb, se, wf⟩
  rcases wf with _ | ⟨b, wf⟩
  · rfl
  · cases b <;> rfl

theorem write_rbuf (s : QLocalSocket) (data : List Byte) :
    (s.write data).2.rbuf = s.rbuf := by
  unfold QLocalSocket.write
  rcases s with ⟨rb, se, wf⟩
  rcases wf with _ | ⟨b, wf⟩
  · rfl
  · cases b <;> rfl

theorem takePath_withRbuf {σ : Type} (c : ApiLocalConnectionHandler σ) (r line : List Byte) :
    withRbuf (takePath c line) r = takePath (withRbuf c r) line := rfl

theorem takeData_withRbuf {σ : Type} (d : ApiServer σ) (c : ApiLocalConnectionHandler σ)
    (r line : List Byte) :
    withRbuf (takeData d c line) r = takeData d (withRbuf c r) line := by
  simp [withRbuf, takeData, QLocalSocket.writeCStr, write_withRbuf]

theorem stepLine_withRbuf {σ : Type} (d : ApiServer σ) (c : ApiLocalConnectionHandler σ)
    (r line : List Byte) :
    withRbuf (stepLine d c line) r = stepLine d (withRbuf c r) line := by
  unfold stepLine
  cases h : c.mState <;> simp [withRbuf, h] <;> 
    first | exact takePath_withRbuf c r line | exact takeData_withRbuf d c r line

theorem stepLines_withRbuf {σ : Type} (d : ApiServer σ) (ls : List (List Byte))
    (c : ApiLocalConnectionHandler σ) (r : List Byte) :
    withRbuf (stepLines d c ls) r = stepLines d (withRbuf c r) ls := by
  induction ls generalizing c with
  | nil => rfl
  | cons l ls ih => simp [stepLines, ih, stepLine_withRbuf]

theorem takePath_rbuf {σ : Type} (c : ApiLocalConnectionHandler σ) (line : List Byte) :
    (takePath c line).mLocalSocket.rbuf = c.mLocalSocket.rbuf := rfl

theorem takeData_rbuf {σ : Type} (d : ApiServer σ) (c : ApiLocalConnectionHandler σ)
    (line : List Byte) :
    (takeData d c line).mLocalSocket.rbuf = c.mLocalSocket.rbuf := by
  simp [takeData, QLocalSocket.writeCStr, write_rbuf]

theorem stepLine_rbuf {σ : Type} (d : ApiServer σ) (c : ApiLocalConnectionHandler σ)
    (line : List Byte) :
    (stepLine d c line).mLocalSocket.rbuf = c.mLocalSocket.rbuf := by
  unfold stepLine
  cases c.mState
  · exact takePath_rbuf c line
  · exact takeData_rbuf d c line

theorem stepLines_rbuf {σ : Type} (d : ApiServer σ) (ls : List (List Byte))
    (c : ApiLocalConnectionHandler σ) :
    (stepLines d c ls).mLocalSocket.rbuf = c.mLocalSocket.rbuf := by
  induction ls generalizing c with
  | nil => rfl
  | cons l ls ih => simp [stepLines, ih, stepLine_rbuf]

theorem readPath_eq {σ : Type} (c : ApiLocalConnectionHandler σ) (l rest : List Byte)
    (hl : NL ∉ l) (hb : c.mLocalSocket.rbuf = l ++ NL :: rest) :
    readPath c = takePath (withRbuf c rest) (l ++ [NL]) := by
  simp [readPath, takePath, withRbuf, QLocalSocket.readLine, hb, splitLine_line l rest hl]

theorem serveData_eq {σ : Type} (d : ApiServer σ) (c : ApiLocalConnectionHandler σ)
    (l rest : List Byte) (hl : NL ∉ l) (hb : c.mLocalSocket.rbuf = l ++ NL :: rest) :
    serveData d c = takeData d (withRbuf c rest) (l ++ [NL]) := by
  simp [serveData, takeData, withRbuf, QLocalSocket.readLine, hb, splitLine_line l rest hl]

theorem unlines_append (xs ys : List (List Byte)) :
    unlines (xs ++ ys) = unlines xs ++ unlines ys := by
  induction xs with
  | nil => rfl
  | cons l ls ih => simp [unlines, ih]

theorem length_le_unlines (ls : List (List Byte)) : ls.length ≤ (unlines ls).length := by
  induction ls with
  | nil => simp
  | cons l ls ih => simp [unlines]; omega

/-- Every buffer is a run of complete lines followed by a partial line. -/
theorem exists_lines (buf : List Byte) :
    ∃ ls r, (∀ l ∈ ls, NL ∉ l) ∧ NL ∉ r ∧ buf = unlines ls ++ r := by
  induction buf with
  | nil => exact ⟨[], [], by simp, by simp, rfl⟩
  | cons b bs ih =>
    obtain ⟨ls, r, hls, hr, hbs⟩ := ih
    by_cases hb : b = NL
    · refine ⟨[] :: ls, r, ?_, hr, ?_⟩
      · intro l hl
        rcases List.mem_cons.1 hl with h | h
        · simp [h]
        · exact hls l h
      · simp [unlines, hb, hbs]
    · cases ls with
      | nil =>
        refine ⟨[], b :: r, by simp, ?_, by simp [unlines, hbs]⟩
        intro h
        rcases List.mem_cons.1 h with h | h
        · exact hb h.symm
        · exact hr h
      | cons l ls =>
        refine ⟨(b :: l) :: ls, r, ?_, hr, by simp [unlines, hbs]⟩
        intro l1 hl1
        rcases List.mem_cons.1 hl1 with h | h
        · subst h
          intro h
          rcases List.mem_cons.1 h with h | h
          · exact hb h.symm
          · exact hls l (by simp) h
        · exact hls l1 (by simp [h])

theorem caseWaitingData_noLine {σ : Type} (d : ApiServer σ) (fuel : Nat)
    (c : ApiLocalConnectionHandler σ) (h : NL ∉ c.mLocalSocket.rbuf) :
    caseWaitingData d (fuel + 1) c = some c := by
  have : c.mLocalSocket.canReadLine = false := (canReadLine_false_iff _).2 h
  simp [caseWaitingData, this]

/-- The loop from `case WAITING_DATA:` on, entered in state `WAITING_DATA`,
handles the buffered complete lines one after the other. -/
theorem caseWaitingData_lines {σ : Type} (d : ApiServer σ) (fuel : Nat) :
    ∀ (ls : List (List Byte)) (r : List Byte) (c : ApiLocalConnectionHandler σ),
      (∀ l ∈ ls, NL ∉ l) → NL ∉ r → c.mLocalSocket.rbuf = unlines ls ++ r →
      c.mState = State.WAITING_DATA → ls.length < fuel →
      caseWaitingData d fuel c = some (stepLines d (withRbuf c r) ls) := by
  induction fuel with
  | zero => intro ls r c _ _ _ _ h; omega
  | succ fuel ih =>
    intro ls r c hls hr hb hs hf
    match ls, hls, hb, hf with
    | [], _, hb, _ =>
      simp only [unlines, List.nil_append] at hb
      rw [caseWaitingData_noLine d fuel c (by rw [hb]; exact hr)]
      simp [stepLines, ← hb, withRbuf_self]
    | [l1], hls, hb, _ =>
      have h1 : NL ∉ l1 := hls l1 (by simp)
      simp only [unlines, List.append_nil] at hb
      have hb1 : c.mLocalSocket.rbuf = l1 ++ NL :: r := by simpa using hb
      have hcan : c.mLocalSocket.canReadLine = true := (canReadLine_iff _).2 (by simp [hb1])
      have hsd := serveData_eq d c l1 r h1 hb1
      have hcan2 : (serveData d c).mLocalSocket.canReadLine = false := by
        rw [hsd]
        apply (canReadLine_false_iff _).2
        rw [takeData_rbuf]
        exact hr
      simp only [caseWaitingData, hcan, hcan2, if_true]
      simp [hsd, stepLines, stepLine, withRbuf, hs]
    | l1 :: l2 :: ls, hls, hb, hf =>
      have h1 : NL ∉ l1 := hls l1 (by simp)
      have h2 : NL ∉ l2 := hls l2 (by simp)
      have hb1 : c.mLocalSocket.rbuf = l1 ++ NL :: (l2 ++ NL :: (unlines ls ++ r)) := by
        simpa [unlines] using hb
      have hcan : c.mLocalSocket.canReadLine = true := (canReadLine_iff _).2 (by simp [hb1])
      have hsd := serveData_eq d c l1 _ h1 hb1
      have hrb : (serveData d c).mLocalSocket.rbuf = l2 ++ NL :: (unlines ls ++ r) := by
        rw [hsd, takeData_rbuf]; rfl
      have hcan2 : (serveData d c).mLocalSocket.canReadLine = true :=
        (canReadLine_iff _).2 (by simp [hrb])
      have hrp := readPath_eq (serveData d c) l2 _ h2 hrb
      simp only [caseWaitingData, hcan, hcan2, if_true]
      rw [ih ls r (readPath (serveData d c)) (fun l hl => hls l (by simp [hl])) hr
        (by rw [hrp]; rfl) (by rw [hrp]; rfl) (by simp at hf; omega)]
      rw [hrp, hsd]
      simp only [takePath_withRbuf, takeData_withRbuf, withRbuf_withRbuf]
      simp [stepLines, stepLine, hs, withRbuf, takeData, takePath]

/-- The slot handles the buffered complete lines one after the other and
leaves the partial line that follows them. -/
theorem handlePendingRequests_lines {σ : Type} (d : ApiServer σ)
    (ls : List (List Byte)) (r : List Byte) (c : ApiLocalConnectionHandler σ)
    (hls : ∀ l ∈ ls, NL ∉ l) (hr : NL ∉ r) (hb : c.mLocalSocket.rbuf = unlines ls ++ r) :
    handlePendingRequests d c = some (stepLines d (withRbuf c r) ls) := by
  have hlen : ls.length < c.mLocalSocket.rbuf.length + 1 := by
    have := length_le_unlines ls
    rw [hb]; simp; omega
  cases hs : c.mState with
  | WAITING_DATA =>
    simp only [handlePendingRequests, hs]
    exact caseWaitingData_lines d _ ls r c hls hr hb hs hlen
  | WAITING_PATH =>
    cases ls with
    | nil =>
      simp only [unlines, List.nil_append] at hb
      have hno : NL ∉ c.mLocalSocket.rbuf := by rw [hb]; exact hr
      have hcan : c.mLocalSocket.canReadLine = false := (canReadLine_false_iff _).2 hno
      simp only [handlePendingRequests, hs, hcan]
      rw [caseWaitingData_noLine d _ c hno]
      simp [stepLines, ← hb, withRbuf_self]
    | cons l1 ls =>
      have h1 : NL ∉ l1 := hls l1 (by simp)
      have hb1 : c.mLocalSocket.rbuf = l1 ++ NL :: (unlines ls ++ r) := by
        simpa [unlines] using hb
      have hcan : c.mLocalSocket.canReadLine = true := (canReadLine_iff _).2 (by simp [hb1])
      have hrp := readPath_eq c l1 _ h1 hb1
      simp only [handlePendingRequests, hs, hcan, if_true]
      rw [caseWaitingData_lines d _ ls r (readPath c) (fun l hl => hls l (by simp [hl])) hr
        (by rw [hrp]; rfl) (by rw [hrp]; rfl) (by simp at hlen; omega)]
      rw [hrp]
      simp only [takePath_withRbuf, withRbuf_withRbuf]
      simp [stepLines, stepLine, hs, withRbuf]

theorem stepLines_append {σ : Type} (d : ApiServer σ) (xs ys : List (List Byte))
    (c : ApiLocalConnectionHandler σ) :
    stepLines d c (xs ++ ys) = stepLines d (stepLines d c xs) ys := by
  induction xs generalizing c with
  | nil => rfl
  | cons l ls ih => simp [stepLines, ih]

theorem withRbuf_receive {σ : Type} (c : ApiLocalConnectionHandler σ) (chunk r : List Byte) :
    withRbuf (receive c chunk) r = withRbuf c r := rfl

/-- A delivery handles the complete lines of the buffer and the chunk taken
together. -/
theorem deliver_lines {σ : Type} (d : ApiServer σ) (c : ApiLocalConnectionHandler σ)
    (chunk : List Byte) (ls : List (List Byte)) (r : List Byte)
    (hls : ∀ l ∈ ls, NL ∉ l) (hr : NL ∉ r)
    (hb : c.mLocalSocket.rbuf ++ chunk = unlines ls ++ r) :
    deliver d c chunk = some (stepLines d (withRbuf c r) ls) := by
  unfold deliver
  rw [handlePendingRequests_lines d ls r (receive c chunk) hls hr hb, withRbuf_receive]

theorem deliver_append {σ : Type} (d : ApiServer σ) (c : ApiLocalConnectionHandler σ)
    (a b : List Byte) :
    deliver d c (a ++ b) = (deliver d c a).bind (fun c1 => deliver d c1 b) := by
  obtain ⟨ls1, r1, hls1, hr1, hb1⟩ := exists_lines (c.mLocalSocket.rbuf ++ a)
  obtain ⟨ls2, r2, hls2, hr2, hb2⟩ := exists_lines (r1 ++ b)
  rw [deliver_lines d c a ls1 r1 hls1 hr1 hb1]
  have hall : ∀ l ∈ ls1 ++ ls2, NL ∉ l := by
    intro l hl
    rcases List.mem_append.1 hl with h | h
    · exact hls1 l h
    · exact hls2 l h
  rw [deliver_lines d c (a ++ b) (ls1 ++ ls2) r2 hall hr2
    (by rw [← List.append_assoc, hb1, List.append_assoc, hb2, unlines_append,
          List.append_assoc])]
  simp only [Option.some_bind]
  rw [deliver_lines d _ b ls2 r2 hls2 hr2 (by rw [stepLines_rbuf]; exact hb2)]
  rw [stepLines_append, stepLines_withRbuf, withRbuf_withRbuf]

theorem deliver_some {σ : Type} (d : ApiServer σ) (c : ApiLocalConnectionHandler σ)
    (chunk : List Byte) :
    ∃ c1, deliver d c chunk = some c1 ∧ NL ∉ c1.mLocalSocket.rbuf := by
  obtain ⟨ls, r, hls, hr, hb⟩ := exists_lines (c.mLocalSocket.rbuf ++ chunk)
  refine ⟨_, deliver_lines d c chunk ls r hls hr hb, ?_⟩
  rw [stepLines_rbuf]
  exact hr

theorem deliver_nil {σ : Type} (d : ApiServer σ) (c : ApiLocalConnectionHandler σ)
    (h : NL ∉ c.mLocalSocket.rbuf) : deliver d c [] = some c := by
  rw [deliver_lines d c [] [] c.mLocalSocket.rbuf (by simp) h (by simp [unlines])]
  rfl

theorem deliverAll_eq_deliver {σ : Type} (d : ApiServer σ) (chunks : List (List Byte)) :
    ∀ (c : ApiLocalConnectionHandler σ), NL ∉ c.mLocalSocket.rbuf →
      deliverAll d c chunks = deliver d c chunks.flatten := by
  induction chunks with
  | nil => intro c h; simp [deliverAll, deliver_nil d c h]
  | cons chunk chunks ih =>
    intro c _
    obtain ⟨c1, h1, hn1⟩ := deliver_some d c chunk
    simp only [deliverAll, h1, List.flatten_cons, deliver_append, Option.some_bind]
    exact ih c1 hn1

/-- On a socket that accepts them, the two writes of a response send the
result and one newline. -/
theorem frame_eq (result : List Byte) : frame result = result ++ [NL] := by
  simp [frame, QLocalSocket.writeCStr, QLocalSocket.write, cstr, NL, NUL]

/-! ## The claims -/

theorem cstr_of_not_mem (l : List Byte) (h : NUL ∉ l) : cstr l = l := by
  unfold cstr
  rw [List.takeWhile_eq_self_iff]
  intro b hb
  simp only [bne_iff_ne, ne_eq]
  intro hbn
  exact h (hbn ▸ hb)

theorem calls_append (xs ys : List Effect) : calls (xs ++ ys) = calls xs ++ calls ys := by
  induction xs with
  | nil => rfl
  | cons e es ih => cases e <;> simp [calls, ih]

theorem linesRead_append (xs ys : List Effect) :
    linesRead (xs ++ ys) = linesRead xs ++ linesRead ys := by
  induction xs with
  | nil => rfl
  | cons e es ih => cases e <;> simp [linesRead, ih]

theorem followCycle_append (xs ys : List Effect) (p : Phase) :
    followCycle p (xs ++ ys) = (followCycle p xs).bind (fun q => followCycle q ys) := by
  induction xs generalizing p with
  | nil => rfl
  | cons e es ih =>
    simp only [List.cons_append, followCycle]
    cases p.next e with
    | none => rfl
    | some q => exact ih q

/-- A fresh handler after any deliveries: the complete lines of the stream
handled one after the other. -/
theorem deliverAll_new {σ : Type} (d : ApiServer σ) (api : σ) (wfail : List Bool)
    (chunks : List (List Byte)) (ls : List (List Byte)) (r : List Byte)
    (hls : ∀ l ∈ ls, NL ∉ l) (hr : NL ∉ r) (hb : chunks.flatten = unlines ls ++ r) :
    deliverAll d (ApiLocalConnectionHandler.new api wfail) chunks =
      some (stepLines d (withRbuf (ApiLocalConnectionHandler.new api wfail) r) ls) := by
  rw [deliverAll_eq_deliver d chunks _ (by simp [ApiLocalConnectionHandler.new])]
  exact deliver_lines d _ _ ls r hls hr (by simpa [ApiLocalConnectionHandler.new] using hb)

/-- C1 (as amended): a fresh connection that receives the two lines `P\n` and
`J\n`, in any number of deliveries, calls the server exactly once, with the
request whose path is the line `P\n` and whose payload is the line `J\n`, each
read as a zero-terminated string: the newline is kept, and the text stops at
the first NUL byte. For `P` and `J` without NUL byte the request is
`{P\n, J\n}`. -/
theorem C1_single_request {σ : Type} (d : ApiServer σ) (api : σ) (wfail : List Bool)
    (P J : List Byte) (chunks : List (List Byte))
    (hP : NL ∉ P) (hJ : NL ∉ J) (hchunks : chunks.flatten = P ++ NL :: (J ++ [NL])) :
    ∃ c1, deliverAll d (ApiLocalConnectionHandler.new api wfail) chunks = some c1 ∧
      calls c1.trace = [{ path := cstr (P ++ [NL]), payload := cstr (J ++ [NL]) }] ∧
      (NUL ∉ P → NUL ∉ J →
        calls c1.trace = [{ path := P ++ [NL], payload := J ++ [NL] }]) := by
  have hrun := deliverAll_new d api wfail chunks [P, J] [] (by
    intro l hl
    simp only [List.mem_cons, List.mem_singleton, List.not_mem_nil, or_false] at hl
    rcases hl with h | h <;> subst h <;> assumption) (by simp)
    (by simp [hchunks, unlines])
  refine ⟨_, hrun, ?_, ?_⟩
  · simp [stepLines, stepLine, takePath, takeData, withRbuf, ApiLocalConnectionHandler.new,
      calls]
  · intro hP0 hJ0
    have h1 : cstr (P ++ [NL]) = P ++ [NL] :=
      cstr_of_not_mem _ (by simp [hP0, Ne.symm NL_ne_NUL])
    have h2 : cstr (J ++ [NL]) = J ++ [NL] :=
      cstr_of_not_mem _ (by simp [hJ0, Ne.symm NL_ne_NUL])
    simp [stepLines, stepLine, takePath, takeData, withRbuf, ApiLocalConnectionHandler.new,
      calls, h1, h2]

/-- Witness of C1: the lines `status\n` and `{}\n`, delivered one by one. -/
theorem C1_single_request_witness :
    ∃ c1, deliverAll echoPath (ApiLocalConnectionHandler.new () [])
        [[115, 116, 97, 116, 117, 115, 10], [123, 125, 10]] = some c1 ∧
      calls c1.trace = [{ path := cstr ([115, 116, 97, 116, 117, 115] ++ [NL]),
                          payload := cstr ([123, 125] ++ [NL]) }] ∧
      (NUL ∉ ([115, 116, 97, 116, 117, 115] : List Byte) → NUL ∉ ([123, 125] : List Byte) →
        calls c1.trace = [{ path := [115, 116, 97, 116, 117, 115] ++ [NL],
                            payload := [123, 125] ++ [NL] }]) :=
  C1_single_request echoPath () [] [115, 116, 97, 116, 117, 115] [123, 125]
    [[115, 116, 97, 116, 117, 115, 10], [123, 125, 10]] (by decide) (by decide) (by decide)

/-- Counterexample to C1 as stated: after `status\n` and `{}\n` the one
request passed to the server has path `status\n` and payload `{}\n`, not path
`status` and payload `{}`. -/
theorem C1_counterexample :
    (deliverAll echoPath (ApiLocalConnectionHandler.new () [])
        [[115, 116, 97, 116, 117, 115, 10], [123, 125, 10]]).map (fun c => calls c.trace)
      = some [{ path := [115, 116, 97, 116, 117, 115, 10], payload := [123, 125, 10] }] ∧
    (deliverAll echoPath (ApiLocalConnectionHandler.new () [])
        [[115, 116, 97, 116, 117, 115, 10], [123, 125, 10]]).map (fun c => calls c.trace)
      ≠ some [{ path := [115, 116, 97, 116, 117, 115], payload := [123, 125] }] := by
  decide

/-- C2 at the failing input: for the request `status\n`, `{}\n` answered with
`{"ok":true}` on a socket whose writes all succeed, the bytes written are the
answer and one newline; the NUL byte of the literal `"\n\0"` is not among
them, so they differ from the answer followed by newline and NUL. -/
theorem C2_response_bytes_no_NUL :
    (deliverAll okServer (ApiLocalConnectionHandler.new () [])
        [[115, 116, 97, 116, 117, 115, 10], [123, 125, 10]]).map
        (fun c => c.mLocalSocket.sent)
      = some [123, 34, 111, 107, 34, 58, 116, 114, 117, 101, 125, 10] ∧
    (deliverAll okServer (ApiLocalConnectionHandler.new () [])
        [[115, 116, 97, 116, 117, 115, 10], [123, 125, 10]]).map
        (fun c => c.mLocalSocket.sent)
      ≠ some [123, 34, 111, 107, 34, 58, 116, 114, 117, 101, 125, 10, 0] := by
  decide

theorem unlines_pairBodies (pairs : List (List Byte × List Byte)) :
    unlines (pairBodies pairs) = requestLines pairs := by
  induction pairs with
  | nil => rfl
  | cons pj rest ih => simp [pairBodies, unlines, requestLines, ih]

theorem mem_pairBodies (pairs : List (List Byte × List Byte))
    (h : ∀ pj ∈ pairs, NL ∉ pj.1 ∧ NL ∉ pj.2) : ∀ l ∈ pairBodies pairs, NL ∉ l := by
  induction pairs with
  | nil => intro l hl; simp [pairBodies] at hl
  | cons pj rest ih =>
    intro l hl
    simp only [pairBodies, List.mem_cons] at hl
    rcases hl with hl | hl | hl
    · rw [hl]; exact (h pj (by simp)).1
    · rw [hl]; exact (h pj (by simp)).2
    · exact ih (fun q hq => h q (by simp [hq])) l hl

theorem calls_serveTrace {σ : Type} (d : ApiServer σ) (pairs : List (List Byte × List Byte)) :
    ∀ s : σ, calls (serveTrace d s pairs) = pairs.map requestOf := by
  induction pairs with
  | nil => intro s; rfl
  | cons pj rest ih => intro s; simp [serveTrace, calls, ih]

theorem write_sent_of_wfail_nil (s : QLocalSocket) (data : List Byte) (h : s.wfail = []) :
    (s.write data).2.sent = s.sent ++ data ∧ (s.write data).2.wfail = [] := by
  unfold QLocalSocket.write
  rw [h]
  exact ⟨rfl, rfl⟩

theorem takeData_sent {σ : Type} (d : ApiServer σ) (c : ApiLocalConnectionHandler σ)
    (line : List Byte) (h : c.mLocalSocket.wfail = []) :
    (takeData d c line).mLocalSocket.sent = c.mLocalSocket.sent ++
        frame (d.handleRequest c.mApiServer { path := c.reqPath, payload := cstr line }).1 ∧
      (takeData d c line).mLocalSocket.wfail = [] := by
  have w1 := write_sent_of_wfail_nil c.mLocalSocket
    (d.handleRequest c.mApiServer { path := c.reqPath, payload := cstr line }).1 h
  have w2 := write_sent_of_wfail_nil _ (cstr [NL, NUL]) w1.2
  simp only [takeData, QLocalSocket.writeCStr]
  refine ⟨?_, w2.2⟩
  rw [w2.1, w1.1]
  simp [frame, QLocalSocket.writeCStr, QLocalSocket.write]

/-- Pairs of lines handled from state `WAITING_PATH`: one request each. -/
theorem stepLines_pairs {σ : Type} (d : ApiServer σ) (pairs : List (List Byte × List Byte)) :
    ∀ c : ApiLocalConnectionHandler σ, c.mState = State.WAITING_PATH →
      (stepLines d c (pairBodies pairs)).mState = State.WAITING_PATH ∧
      (stepLines d c (pairBodies pairs)).trace = c.trace ++ serveTrace d c.mApiServer pairs ∧
      (stepLines d c (pairBodies pairs)).mApiServer = serveState d c.mApiServer pairs ∧
      (c.mLocalSocket.wfail = [] →
        (stepLines d c (pairBodies pairs)).mLocalSocket.sent =
          c.mLocalSocket.sent ++ serveSent d c.mApiServer pairs) := by
  induction pairs with
  | nil => intro c hs; simp [stepLines, pairBodies, serveTrace, serveState, serveSent, hs]
  | cons pj rest ih =>
    intro c hs
    have hstep : stepLines d c (pairBodies (pj :: rest)) =
        stepLines d (takeData d (takePath c (pj.1 ++ [NL])) (pj.2 ++ [NL])) (pairBodies rest) := by
      simp [pairBodies, stepLines, stepLine, hs, takePath]
    obtain ⟨i1, i2, i3, i4⟩ := ih (takeData d (takePath c (pj.1 ++ [NL])) (pj.2 ++ [NL])) rfl
    rw [hstep]
    refine ⟨i1, ?_, ?_, ?_⟩
    · rw [i2]; simp [takeData, takePath, serveTrace, requestOf]
    · rw [i3]; simp [takeData, takePath, serveState, requestOf]
    · intro hw
      have hs := takeData_sent d (takePath c (pj.1 ++ [NL])) (pj.2 ++ [NL]) hw
      rw [i4 hs.2, hs.1]
      simp [takeData, takePath, serveSent, requestOf]

/-- C3 (as amended): when the lines of N requests are all in the buffer and
`handlePendingRequests` is invoked once in state `WAITING_PATH`, that one
invocation makes, for each pair in order, the calls read path line, read
payload line, `handleRequest`, write of the result, write of the terminator
literal; the i-th request is built from the i-th pair of lines as `readLine`
returns them (newline kept, cut at the first NUL byte); the server is called
exactly N times; the handler ends in state `WAITING_PATH` with an empty
buffer; and on a socket whose writes succeed the bytes written are the N
results in order, each as framed by the two writes of lines 95-96. -/
theorem C3_pipelined_requests {σ : Type} (d : ApiServer σ) (c : ApiLocalConnectionHandler σ)
    (pairs : List (List Byte × List Byte))
    (hs : c.mState = State.WAITING_PATH)
    (hl : ∀ pj ∈ pairs, NL ∉ pj.1 ∧ NL ∉ pj.2)
    (hb : c.mLocalSocket.rbuf = requestLines pairs) :
    ∃ c1, handlePendingRequests d c = some c1 ∧
      c1.mState = State.WAITING_PATH ∧
      c1.mLocalSocket.rbuf = [] ∧
      c1.trace = c.trace ++ serveTrace d c.mApiServer pairs ∧
      calls c1.trace = calls c.trace ++ pairs.map requestOf ∧
      (calls c1.trace).length = (calls c.trace).length + pairs.length ∧
      (c.mLocalSocket.wfail = [] →
        c1.mLocalSocket.sent = c.mLocalSocket.sent ++ serveSent d c.mApiServer pairs) := by
  have hrun := handlePendingRequests_lines d (pairBodies pairs) [] c (mem_pairBodies pairs hl)
    (by simp) (by rw [hb, unlines_pairBodies]; simp)
  obtain ⟨i1, i2, _, i4⟩ := stepLines_pairs d pairs (withRbuf c []) hs
  have hc : calls (stepLines d (withRbuf c []) (pairBodies pairs)).trace =
      calls c.trace ++ pairs.map requestOf := by
    rw [i2, calls_append, calls_serveTrace]; rfl
  refine ⟨_, hrun, i1, ?_, i2, hc, ?_, i4⟩
  · rw [stepLines_rbuf]; rfl
  · rw [hc]; simp

/-- Witness of C3: the single write `a\n{1}\nb\n{2}\n` to a fresh connection. -/
theorem C3_pipelined_requests_witness :
    (∀ pj ∈ twoRequests, NL ∉ pj.1 ∧ NL ∉ pj.2) ∧
    ∃ c1, handlePendingRequests echoPath
        (receive (ApiLocalConnectionHandler.new () []) twoRequestsBytes) = some c1 ∧
      c1.mState = State.WAITING_PATH ∧
      c1.mLocalSocket.rbuf = [] ∧
      c1.trace = (receive (ApiLocalConnectionHandler.new () []) twoRequestsBytes).trace ++
        serveTrace echoPath () twoRequests ∧
      calls c1.trace =
        calls (receive (ApiLocalConnectionHandler.new () []) twoRequestsBytes).trace ++
          twoRequests.map requestOf ∧
      (calls c1.trace).length =
        (calls (receive (ApiLocalConnectionHandler.new () []) twoRequestsBytes).trace).length
          + twoRequests.length ∧
      ((receive (ApiLocalConnectionHandler.new () []) twoRequestsBytes).mLocalSocket.wfail = [] →
        c1.mLocalSocket.sent =
          (receive (ApiLocalConnectionHandler.new () []) twoRequestsBytes).mLocalSocket.sent ++
            serveSent echoPath () twoRequests) :=
  ⟨by decide,
   C3_pipelined_requests echoPath (receive (ApiLocalConnectionHandler.new () []) twoRequestsBytes)
     twoRequests rfl (by decide) (by decide)⟩

/-- Counterexample to C3 as stated: for the single write `a\n{1}\nb\n{2}\n`
and a server that answers with the path it is given, the requests passed are
`(a\n, {1}\n)` and `(b\n, {2}\n)`, not `(a, {1})` and `(b, {2})`, and the
bytes written are `a\n\nb\n\n`: neither the results `a` and `b` each followed
by newline and NUL, nor each followed by a newline alone. -/
theorem C3_counterexample :
    (handlePendingRequests echoPath
        (receive (ApiLocalConnectionHandler.new () []) twoRequestsBytes)).map
        (fun c => (calls c.trace, c.mLocalSocket.sent))
      = some ([{ path := [97, 10], payload := [123, 49, 125, 10] },
               { path := [98, 10], payload := [123, 50, 125, 10] }],
              [97, 10, 10, 98, 10, 10]) ∧
    ([{ path := [97, 10], payload := [123, 49, 125, 10] },
      { path := [98, 10], payload := [123, 50, 125, 10] }] : List Request)
      ≠ [{ path := [97], payload := [123, 49, 125] },
         { path := [98], payload := [123, 50, 125] }] ∧
    ([97, 10, 10, 98, 10, 10] : List Byte) ≠ [97, 10, 0, 98, 10, 0] ∧
    ([97, 10, 10, 98, 10, 10] : List Byte) ≠ [97, 10, 98, 10] := by
  decide

/-- C4: for every handler state and every way of cutting an input stream
into consecutive chunks, delivering the chunks one by one (each appended to
the buffer and followed by one invocation of `handlePendingRequests`) ends
in the same handler state as delivering the whole stream as one chunk: the
same calls with the same requests in the same order, the same bytes written,
the same state, pending path and remaining buffer. -/
theorem C4_delivery_boundary_independent {σ : Type} (d : ApiServer σ)
    (c : ApiLocalConnectionHandler σ) (chunk : List Byte) (chunks : List (List Byte)) :
    ∃ c1 c2, deliverAll d c (chunk :: chunks) = some c1 ∧
      deliver d c (chunk :: chunks).flatten = some c2 ∧
      calls c1.trace = calls c2.trace ∧
      c1.mLocalSocket.sent = c2.mLocalSocket.sent ∧
      c1 = c2 := by
  obtain ⟨c0, h0, hn0⟩ := deliver_some d c chunk
  obtain ⟨c1, h1, _⟩ := deliver_some d c0 chunks.flatten
  refine ⟨c1, c1, ?_, ?_, rfl, rfl, rfl⟩
  · simp only [deliverAll, h0]
    rw [deliverAll_eq_deliver d chunks c0 hn0]
    exact h1
  · rw [List.flatten_cons, deliver_append, h0]
    exact h1

theorem flatten_map_line (ls : List (List Byte)) :
    (ls.map (fun l => l ++ [NL])).flatten = unlines ls := by
  induction ls with
  | nil => rfl
  | cons l ls ih => simp [unlines, ih]

theorem linesRead_stepLine {σ : Type} (d : ApiServer σ) (c : ApiLocalConnectionHandler σ)
    (line : List Byte) :
    linesRead (stepLine d c line).trace = linesRead c.trace ++ [line] := by
  unfold stepLine
  cases c.mState <;> simp [takePath, takeData, linesRead_append, linesRead]

theorem linesRead_stepLines {σ : Type} (d : ApiServer σ) (ls : List (List Byte)) :
    ∀ c : ApiLocalConnectionHandler σ,
      linesRead (stepLines d c ls).trace = linesRead c.trace ++ ls.map (fun l => l ++ [NL]) := by
  induction ls with
  | nil => intro c; simp [stepLines]
  | cons l ls ih => intro c; simp [stepLines, ih, linesRead_stepLine]

/-- C5: for every state and every buffer content `handlePendingRequests`
returns, and when it does the buffer holds no complete line: the lines read
in this invocation are complete lines, they are the front of the buffer as
it was at the notification, and what is left after them has no newline. -/
theorem C5_drains_all_complete_lines {σ : Type} (d : ApiServer σ)
    (c : ApiLocalConnectionHandler σ) :
    ∃ c1, handlePendingRequests d c = some c1 ∧
      NL ∉ c1.mLocalSocket.rbuf ∧
      c1.mLocalSocket.canReadLine = false ∧
      ∃ ls : List (List Byte),
        linesRead c1.trace = linesRead c.trace ++ ls.map (fun l => l ++ [NL]) ∧
        (∀ l ∈ ls, NL ∉ l) ∧
        (ls.map (fun l => l ++ [NL])).flatten ++ c1.mLocalSocket.rbuf = c.mLocalSocket.rbuf := by
  obtain ⟨ls, r, hls, hr, hb⟩ := exists_lines c.mLocalSocket.rbuf
  have hrb : (stepLines d (withRbuf c r) ls).mLocalSocket.rbuf = r := by
    rw [stepLines_rbuf]; rfl
  refine ⟨_, handlePendingRequests_lines d ls r c hls hr hb, ?_, ?_, ls, ?_, hls, ?_⟩
  · rw [hrb]; exact hr
  · apply (canReadLine_false_iff _).2; rw [hrb]; exact hr
  · rw [linesRead_stepLines]; rfl
  · rw [hrb, flatten_map_line, hb]

/-- C6: in either state, when the buffer holds no complete line
`handlePendingRequests` returns and leaves the handler as it was: same state,
same stored path, same buffered bytes, no call of the server, no byte
written. -/
theorem C6_no_line_no_change {σ : Type} (d : ApiServer σ) (c : ApiLocalConnectionHandler σ)
    (h : NL ∉ c.mLocalSocket.rbuf) :
    handlePendingRequests d c = some c := by
  rw [handlePendingRequests_lines d [] c.mLocalSocket.rbuf c (by simp) h (by simp [unlines])]
  rfl

/-- Witness of C6: the partial line `foo` in state `WAITING_PATH`, where
control falls through into the `WAITING_DATA` branch. -/
theorem C6_no_line_no_change_witness :
    NL ∉ (receive (ApiLocalConnectionHandler.new () []) [102, 111, 111]).mLocalSocket.rbuf ∧
    handlePendingRequests echoPath (receive (ApiLocalConnectionHandler.new () []) [102, 111, 111])
      = some (receive (ApiLocalConnectionHandler.new () []) [102, 111, 111]) :=
  ⟨by decide, C6_no_line_no_change echoPath _ (by decide)⟩

/-- C7 (as amended): in state `WAITING_PATH` with a buffer holding one
complete line `L\n` followed by a partial line `R`, one invocation reads the
line, stores as pending path the line `L\n` read as a zero-terminated string
(the newline kept, cut at the first NUL byte; `L\n` itself when `L` has no
NUL byte), moves to `WAITING_DATA`, and leaves exactly `R` in the buffer; the
only call made is that `readLine`: the server is not called, nothing is
written. -/
theorem C7_path_line {σ : Type} (d : ApiServer σ) (c : ApiLocalConnectionHandler σ)
    (L R : List Byte) (hs : c.mState = State.WAITING_PATH)
    (hL : NL ∉ L) (hR : NL ∉ R) (hb : c.mLocalSocket.rbuf = L ++ NL :: R) :
    handlePendingRequests d c =
      some { c with mState := State.WAITING_DATA,
                    reqPath := cstr (L ++ [NL]),
                    mLocalSocket := { c.mLocalSocket with rbuf := R },
                    trace := c.trace ++ [Effect.readLine (L ++ [NL])] } ∧
    (NUL ∉ L → cstr (L ++ [NL]) = L ++ [NL]) := by
  constructor
  · rw [handlePendingRequests_lines d [L] R c (by simpa using hL) hR (by simp [unlines, hb])]
    simp [stepLines, stepLine, withRbuf, hs, takePath]
  · intro h0
    exact cstr_of_not_mem _ (by simp [h0, Ne.symm NL_ne_NUL])

/-- Witness of C7: the buffer `foo\nba` in a fresh handler. -/
theorem C7_path_line_witness :
    handlePendingRequests echoPath
        (receive (ApiLocalConnectionHandler.new () []) [102, 111, 111, 10, 98, 97]) =
      some { receive (ApiLocalConnectionHandler.new () []) [102, 111, 111, 10, 98, 97] with
             mState := State.WAITING_DATA,
             reqPath := cstr ([102, 111, 111] ++ [NL]),
             mLocalSocket := { rbuf := [98, 97], sent := [], wfail := [] },
             trace := [Effect.readLine ([102, 111, 111] ++ [NL])] } ∧
    (NUL ∉ ([102, 111, 111] : List Byte) → cstr ([102, 111, 111] ++ [NL]) = [102, 111, 111] ++ [NL]) :=
  C7_path_line echoPath (receive (ApiLocalConnectionHandler.new () []) [102, 111, 111, 10, 98, 97])
    [102, 111, 111] [98, 97] rfl (by decide) (by decide) (by decide)

/-- Counterexample to C7 as stated: for the complete line `a\0b\n` the stored
path is `a`, neither the line `a\0b\n` nor its body `a\0b`. -/
theorem C7_counterexample :
    (handlePendingRequests echoPath
        (receive (ApiLocalConnectionHandler.new () []) [97, 0, 98, 10])).map
        (fun c => (c.mState, c.reqPath, c.mLocalSocket.rbuf))
      = some (State.WAITING_DATA, [97], []) ∧
    ([97] : List Byte) ≠ [97, 0, 98, 10] ∧ ([97] : List Byte) ≠ [97, 0, 98] := by
  decide

theorem followCycle_stepLine {σ : Type} (d : ApiServer σ) (c : ApiLocalConnectionHandler σ)
    (line : List Byte) (h : followCycle Phase.idle c.trace = some (phaseOf c)) :
    followCycle Phase.idle (stepLine d c line).trace = some (phaseOf (stepLine d c line)) := by
  unfold stepLine
  cases hs : c.mState with
  | WAITING_PATH =>
    simp only [phaseOf, hs] at h
    simp [takePath, followCycle_append, h, followCycle, Phase.next, phaseOf]
  | WAITING_DATA =>
    simp only [phaseOf, hs] at h
    simp [takeData, followCycle_append, h, followCycle, Phase.next, phaseOf]

theorem followCycle_stepLines {σ : Type} (d : ApiServer σ) (ls : List (List Byte)) :
    ∀ c : ApiLocalConnectionHandler σ, followCycle Phase.idle c.trace = some (phaseOf c) →
      followCycle Phase.idle (stepLines d c ls).trace = some (phaseOf (stepLines d c ls)) := by
  induction ls with
  | nil => intro c h; exact h
  | cons l ls ih => intro c h; exact ih _ (followCycle_stepLine d c _ h)

/-- C8: in the calls made on one connection, from its construction through
any sequence of deliveries, the cycle read path line, read payload line,
`handleRequest`, write of the result, write of the terminator is followed
without exception: a line is read only when no request is awaiting its
response, every request passed to the server is built from the two lines read
just before it, the result written is the one the server returned for it, and
the lines are read in the order in which they arrived in the stream. -/
theorem C8_one_request_in_flight {σ : Type} (d : ApiServer σ) (api : σ) (wfail : List Bool)
    (chunks : List (List Byte)) :
    ∃ c1, deliverAll d (ApiLocalConnectionHandler.new api wfail) chunks = some c1 ∧
      followCycle Phase.idle c1.trace = some (phaseOf c1) ∧
      (linesRead c1.trace).flatten ++ c1.mLocalSocket.rbuf = chunks.flatten := by
  obtain ⟨ls, r, hls, hr, hb⟩ := exists_lines chunks.flatten
  refine ⟨_, deliverAll_new d api wfail chunks ls r hls hr hb, ?_, ?_⟩
  · exact followCycle_stepLines d ls _ rfl
  · rw [linesRead_stepLines, stepLines_rbuf, hb, ← flatten_map_line]
    simp [withRbuf, ApiLocalConnectionHandler.new, linesRead]

theorem agreeUpToPath_deliver {σ : Type} (d : ApiServer σ) (c1 c2 : ApiLocalConnectionHandler σ)
    (chunk : List Byte) (h : agreeUpToPath c1 c2) :
    ∃ c3 c4, deliver d c1 chunk = some c3 ∧ deliver d c2 chunk = some c4 ∧
      agreeUpToPath c3 c4 := by
  rcases h with h | ⟨hs, h⟩
  · subst h
    obtain ⟨c3, h3, _⟩ := deliver_some d c2 chunk
    exact ⟨c3, c3, h3, h3, Or.inl rfl⟩
  · obtain ⟨ls, r, hls, hr, hb⟩ := exists_lines (c1.mLocalSocket.rbuf ++ chunk)
    have hb2 : c2.mLocalSocket.rbuf ++ chunk = unlines ls ++ r := by rw [h]; exact hb
    refine ⟨_, _, deliver_lines d c1 chunk ls r hls hr hb,
      deliver_lines d c2 chunk ls r hls hr hb2, ?_⟩
    cases ls with
    | nil =>
      right
      refine ⟨hs, ?_⟩
      simp only [stepLines]
      rw [h]
      rfl
    | cons l ls =>
      left
      simp only [stepLines]
      rw [h]
      simp [stepLine, withRbuf, hs, takePath]

theorem agreeUpToPath_deliverAll {σ : Type} (d : ApiServer σ) (chunks : List (List Byte)) :
    ∀ c1 c2 : ApiLocalConnectionHandler σ, agreeUpToPath c1 c2 →
      ∃ c3 c4, deliverAll d c1 chunks = some c3 ∧ deliverAll d c2 chunks = some c4 ∧
        agreeUpToPath c3 c4 := by
  induction chunks with
  | nil => intro c1 c2 h; exact ⟨c1, c2, rfl, rfl, h⟩
  | cons chunk chunks ih =>
    intro c1 c2 h
    obtain ⟨c3, c4, h3, h4, h34⟩ := agreeUpToPath_deliver d c1 c2 chunk h
    obtain ⟨c5, c6, h5, h6, h56⟩ := ih c3 c4 h34
    exact ⟨c5, c6, by simp only [deliverAll, h3, h5], by simp only [deliverAll, h4, h6], h56⟩

/-- C9: two connections in state `WAITING_PATH` that differ only in the path
stored by an earlier request behave alike under every sequence of
deliveries: the same calls with the same requests, the same bytes written,
the same state, buffer and server state; the stored paths are equal again as
soon as the state is `WAITING_DATA`. The stored path is never read in state
`WAITING_PATH` before `readPath` has replaced it. -/
theorem C9_stale_path_unused {σ : Type} (d : ApiServer σ) (c : ApiLocalConnectionHandler σ)
    (stale : List Byte) (chunks : List (List Byte)) (hs : c.mState = State.WAITING_PATH) :
    ∃ c1 c2, deliverAll d c chunks = some c1 ∧
      deliverAll d { c with reqPath := stale } chunks = some c2 ∧
      calls c2.trace = calls c1.trace ∧
      c2.mLocalSocket.sent = c1.mLocalSocket.sent ∧
      c2.trace = c1.trace ∧ c2.mLocalSocket = c1.mLocalSocket ∧
      c2.mState = c1.mState ∧ c2.mApiServer = c1.mApiServer ∧
      (c1.mState = State.WAITING_DATA → c2.reqPath = c1.reqPath) := by
  obtain ⟨c1, c2, h1, h2, h12⟩ :=
    agreeUpToPath_deliverAll d chunks c { c with reqPath := stale } (Or.inr ⟨hs, rfl⟩)
  refine ⟨c1, c2, h1, h2, ?_⟩
  rcases h12 with h | ⟨hs1, h⟩
  · subst h
    exact ⟨rfl, rfl, rfl, rfl, rfl, rfl, fun _ => rfl⟩
  · rw [h]
    refine ⟨rfl, rfl, rfl, rfl, rfl, rfl, ?_⟩
    intro hd
    rw [hs1] at hd
    cases hd

/-- Witness of C9: a handler back in `WAITING_PATH` with the stored path `a\n`
against one with the stored path `x`, both receiving `b\n` then `{}\n`. -/
theorem C9_stale_path_unused_witness :
    ∃ c1 c2,
      deliverAll echoPath { ApiLocalConnectionHandler.new () [] with reqPath := [97, 10] }
        [[98, 10], [123, 125, 10]] = some c1 ∧
      deliverAll echoPath
        { ({ ApiLocalConnectionHandler.new () [] with reqPath := [97, 10] } :
            ApiLocalConnectionHandler Unit) with reqPath := [120] }
        [[98, 10], [123, 125, 10]] = some c2 ∧
      calls c2.trace = calls c1.trace ∧
      c2.mLocalSocket.sent = c1.mLocalSocket.sent ∧
      c2.trace = c1.trace ∧ c2.mLocalSocket = c1.mLocalSocket ∧
      c2.mState = c1.mState ∧ c2.mApiServer = c1.mApiServer ∧
      (c1.mState = State.WAITING_DATA → c2.reqPath = c1.reqPath) :=
  C9_stale_path_unused echoPath { ApiLocalConnectionHandler.new () [] with reqPath := [97, 10] }
    [120] [[98, 10], [123, 125, 10]] rfl

theorem agreeUpToWrites_stepLine {σ : Type} (d : ApiServer σ)
    (c1 c2 : ApiLocalConnectionHandler σ) (line : List Byte) (h : agreeUpToWrites c1 c2) :
    agreeUpToWrites (stepLine d c1 line) (stepLine d c2 line) := by
  obtain ⟨h1, h2, h3, h4, h5⟩ := h
  unfold stepLine
  rw [h1]
  cases c1.mState with
  | WAITING_PATH => exact ⟨rfl, rfl, h3, h4, by simp [takePath, h5]⟩
  | WAITING_DATA =>
    refine ⟨rfl, ?_, ?_, ?_, ?_⟩
    · simp [takeData, h2]
    · rw [takeData_rbuf, takeData_rbuf]; exact h3
    · simp [takeData, h2, h4]
    · simp [takeData, h2, h4, h5]

theorem agreeUpToWrites_stepLines {σ : Type} (d : ApiServer σ) (ls : List (List Byte)) :
    ∀ c1 c2 : ApiLocalConnectionHandler σ, agreeUpToWrites c1 c2 →
      agreeUpToWrites (stepLines d c1 ls) (stepLines d c2 ls) := by
  induction ls with
  | nil => intro c1 c2 h; exact h
  | cons l ls ih => intro c1 c2 h; exact ih _ _ (agreeUpToWrites_stepLine d c1 c2 _ h)

/-- C10 (as amended): a socket write failure is not retried and is not
acted on by `handlePendingRequests`, which discards the result of `write`:
whatever writes fail, the invocation returns having read the same lines,
made the same server calls with the same requests and the same write calls,
and ends in the same state with the same pending path, the same server state
and the same remaining buffer, free of complete lines, as on a socket with
any other write outcomes, in particular one where every write succeeds. -/
theorem C10_write_failure_ignored {σ : Type} (d : ApiServer σ)
    (c : ApiLocalConnectionHandler σ) (wfail : List Bool) :
    ∃ c1 c2, handlePendingRequests d c = some c1 ∧
      handlePendingRequests d
        { c with mLocalSocket := { c.mLocalSocket with wfail := wfail } } = some c2 ∧
      c2.trace = c1.trace ∧
      calls c2.trace = calls c1.trace ∧
      linesRead c2.trace = linesRead c1.trace ∧
      c2.mState = c1.mState ∧ c2.reqPath = c1.reqPath ∧
      c2.mApiServer = c1.mApiServer ∧
      c2.mLocalSocket.rbuf = c1.mLocalSocket.rbuf ∧
      NL ∉ c2.mLocalSocket.rbuf := by
  obtain ⟨ls, r, hls, hr, hb⟩ := exists_lines c.mLocalSocket.rbuf
  have h1 := handlePendingRequests_lines d ls r c hls hr hb
  have h2 := handlePendingRequests_lines d ls r
    { c with mLocalSocket := { c.mLocalSocket with wfail := wfail } } hls hr hb
  obtain ⟨a1, a2, a3, a4, a5⟩ := agreeUpToWrites_stepLines d ls (withRbuf c r)
    (withRbuf { c with mLocalSocket := { c.mLocalSocket with wfail := wfail } } r)
    ⟨rfl, rfl, rfl, rfl, rfl⟩
  refine ⟨_, _, h1, h2, a5, by rw [a5], by rw [a5], a1, a2, a4, a3, ?_⟩
  rw [stepLines_rbuf]
  exact hr

/-- Counterexample to C10 as stated: on a socket where both writes of the
first response fail, one invocation with `a\n{1}\nb\n{2}\n` buffered still
reads the two lines of the second request and calls the server for it: four
lines read, two server calls, nothing left in the buffer, and the second
response written. -/
theorem C10_counterexample :
    (handlePendingRequests echoPath
        (receive (ApiLocalConnectionHandler.new () [true, true]) twoRequestsBytes)).map
        (fun c => (c.trace, c.mLocalSocket.rbuf, c.mLocalSocket.sent))
      = some ([Effect.readLine [97, 10], Effect.readLine [123, 49, 125, 10],
               Effect.handleRequest { path := [97, 10], payload := [123, 49, 125, 10] } [97, 10],
               Effect.write [97, 10], Effect.writeCStr [10, 0],
               Effect.readLine [98, 10], Effect.readLine [123, 50, 125, 10],
               Effect.handleRequest { path := [98, 10], payload := [123, 50, 125, 10] } [98, 10],
               Effect.write [98, 10], Effect.writeCStr [10, 0]],
              [], [98, 10, 10]) := by
  decide

theorem cstr_NL : cstr [NL] = [NL] := by decide

/-- C11 (as amended): an empty path line is accepted. A fresh connection that
receives `\n` reads it as the path line, stores the one-byte path `\n` (the
line as `readLine` returns it), moves to `WAITING_DATA` and calls nothing
else; when `J\n` follows, the server is called exactly once, with the path
`\n` and as payload the line `J\n` read as a zero-terminated string, its
result is written followed by the terminator write, and the handler is back
in `WAITING_PATH`. No path line is rejected, skipped or checked. -/
theorem C11_empty_path_line {σ : Type} (d : ApiServer σ) (api : σ) (wfail : List Bool)
    (J : List Byte) (hJ : NL ∉ J) :
    ∃ c1 c2,
      deliver d (ApiLocalConnectionHandler.new api wfail) [NL] = some c1 ∧
      c1.mState = State.WAITING_DATA ∧ c1.reqPath = [NL] ∧
      c1.mLocalSocket.rbuf = [] ∧ c1.trace = [Effect.readLine [NL]] ∧
      deliver d c1 (J ++ [NL]) = some c2 ∧
      c2.mState = State.WAITING_PATH ∧ c2.mLocalSocket.rbuf = [] ∧
      calls c2.trace = [{ path := [NL], payload := cstr (J ++ [NL]) }] ∧
      c2.trace =
        [Effect.readLine [NL], Effect.readLine (J ++ [NL]),
         Effect.handleRequest { path := [NL], payload := cstr (J ++ [NL]) }
           (d.handleRequest api { path := [NL], payload := cstr (J ++ [NL]) }).1,
         Effect.write (d.handleRequest api { path := [NL], payload := cstr (J ++ [NL]) }).1,
         Effect.writeCStr [NL, NUL]] ∧
      (wfail = [] → c2.mLocalSocket.sent =
        frame (d.handleRequest api { path := [NL], payload := cstr (J ++ [NL]) }).1) := by
  have h1 := deliver_lines d (ApiLocalConnectionHandler.new api wfail) [NL] [[]] []
    (by simp) (by simp) (by simp [unlines, ApiLocalConnectionHandler.new])
  have e1 : stepLines d (withRbuf (ApiLocalConnectionHandler.new api wfail) []) [[]] =
      takePath (ApiLocalConnectionHandler.new api wfail) [NL] := by
    simp [stepLines, stepLine, withRbuf, ApiLocalConnectionHandler.new]
  rw [e1] at h1
  have h2 := deliver_lines d (takePath (ApiLocalConnectionHandler.new api wfail) [NL])
    (J ++ [NL]) [J] [] (by simpa using hJ) (by simp)
    (by simp [unlines, takePath, ApiLocalConnectionHandler.new])
  have e2 : stepLines d (withRbuf (takePath (ApiLocalConnectionHandler.new api wfail) [NL]) [])
      [J] = takeData d (takePath (ApiLocalConnectionHandler.new api wfail) [NL]) (J ++ [NL]) := by
    simp [stepLines, stepLine, withRbuf, takePath, ApiLocalConnectionHandler.new]
  rw [e2] at h2
  refine ⟨_, _, h1, rfl, ?_, rfl, ?_, h2, rfl, ?_, ?_, ?_, ?_⟩
  · simp [takePath, cstr_NL]
  · simp [takePath, ApiLocalConnectionHandler.new]
  · rw [takeData_rbuf]; rfl
  · simp [takeData, takePath, ApiLocalConnectionHandler.new, calls, cstr_NL]
  · simp [takeData, takePath, ApiLocalConnectionHandler.new, cstr_NL]
  · intro hw
    have hs := takeData_sent d (takePath (ApiLocalConnectionHandler.new api wfail) [NL])
      (J ++ [NL]) (by simp [takePath, ApiLocalConnectionHandler.new, hw])
    rw [hs.1]
    simp [takePath, ApiLocalConnectionHandler.new, cstr_NL]

/-- Witness of C11: the empty path line followed by the payload line `{}\n`. -/
theorem C11_empty_path_line_witness :
    NL ∉ ([123, 125] : List Byte) ∧
    ∃ c1 c2,
      deliver echoPath (ApiLocalConnectionHandler.new () []) [NL] = some c1 ∧
      c1.mState = State.WAITING_DATA ∧ c1.reqPath = [NL] ∧
      c1.mLocalSocket.rbuf = [] ∧ c1.trace = [Effect.readLine [NL]] ∧
      deliver echoPath c1 ([123, 125] ++ [NL]) = some c2 ∧
      c2.mState = State.WAITING_PATH ∧ c2.mLocalSocket.rbuf = [] ∧
      calls c2.trace = [{ path := [NL], payload := cstr ([123, 125] ++ [NL]) }] ∧
      c2.trace =
        [Effect.readLine [NL], Effect.readLine ([123, 125] ++ [NL]),
         Effect.handleRequest { path := [NL], payload := cstr ([123, 125] ++ [NL]) }
           (echoPath.handleRequest ()
             { path := [NL], payload := cstr ([123, 125] ++ [NL]) }).1,
         Effect.write (echoPath.handleRequest ()
             { path := [NL], payload := cstr ([123, 125] ++ [NL]) }).1,
         Effect.writeCStr [NL, NUL]] ∧
      (([] : List Bool) = [] → c2.mLocalSocket.sent =
        frame (echoPath.handleRequest ()
          { path := [NL], payload := cstr ([123, 125] ++ [NL]) }).1) :=
  ⟨by decide, C11_empty_path_line echoPath () [] [123, 125] (by decide)⟩

/-- Counterexample to C11 as stated: after `\n` and `{}\n` the one request
passed to the server has the path `\n` and the payload `{}\n`, not the empty
path and the payload `{}`. -/
theorem C11_counterexample :
    (deliverAll echoPath (ApiLocalConnectionHandler.new () []) [[10], [123, 125, 10]]).map
        (fun c => calls c.trace)
      = some [{ path := [10], payload := [123, 125, 10] }] ∧
    (deliverAll echoPath (ApiLocalConnectionHandler.new () []) [[10], [123, 125, 10]]).map
        (fun c => calls c.trace)
      ≠ some [{ path := [], payload := [123, 125] }] := by
  decide

theorem signals_deleted {σ : Type} (d : ApiServer σ) (sigs : List Signal)
    (sent : List Byte) (api : σ) (trace : List Effect) :
    Connection.signals d (Connection.deleted sent api trace) sigs =
      some (Connection.deleted sent api trace) := by
  induction sigs with
  | nil => rfl
  | cons sig sigs ih => simp only [Connection.signals, Connection.signal, ih]

/-- C12: in every state and with every buffer content, a partial line
included, the signal `disconnected()` ends the connection: the handler is
deleted and its destructor closes and deletes the socket, buffered bytes
included. The server is not called and nothing is written: the calls made and
the bytes sent are those from before the signal, and they stay so whatever
signal is raised afterwards, so the request cut short gets no response. -/
theorem C12_disconnect_discards {σ : Type} (d : ApiServer σ)
    (c : ApiLocalConnectionHandler σ) (later : List Signal) :
    Connection.signal d (Connection.live c) Signal.disconnected =
      some (Connection.deleted c.mLocalSocket.sent c.mApiServer c.trace) ∧
    Connection.signals d (Connection.live c) (Signal.disconnected :: later) =
      some (Connection.deleted c.mLocalSocket.sent c.mApiServer c.trace) := by
  refine ⟨rfl, ?_⟩
  simp only [Connection.signals, Connection.signal, ApiLocalConnectionHandler.deleteLater,
    ApiLocalConnectionHandler.destructor]
  exact signals_deleted d later _ _ _

/-- The path line `a\n` and the partial payload `{1`, then the disconnect:
the one call made is the read of the path line, and the rest of the payload
line, were it to come, is not handled. Without the disconnect it would be. -/
theorem disconnect_partial_payload :
    Connection.signals echoPath (Connection.live (ApiLocalConnectionHandler.new () []))
        [Signal.readyRead [97, 10, 123, 49], Signal.disconnected, Signal.readyRead [125, 10]]
      = some (Connection.deleted [] () [Effect.readLine [97, 10]]) ∧
    Connection.signals echoPath (Connection.live (ApiLocalConnectionHandler.new () []))
        [Signal.readyRead [97, 10, 123, 49], Signal.readyRead [125, 10]]
      = some (Connection.live
          { mState := State.WAITING_PATH, reqPath := [97, 10],
            mLocalSocket := { rbuf := [], sent := [97, 10, 10], wfail := [] },
            mApiServer := (),
            trace := [Effect.readLine [97, 10], Effect.readLine [123, 49, 125, 10],
                      Effect.handleRequest { path := [97, 10], payload := [123, 49, 125, 10] }
                        [97, 10],
                      Effect.write [97, 10], Effect.writeCStr [10, 0]] }) := by
  decide

theorem decodeFrame_frame (T : List Byte) (hT : NL ∉ T) : decodeFrame (frame T) = T := by
  rw [frame_eq]
  unfold decodeFrame
  induction T with
  | nil => simp [List.takeWhile]
  | cons b bs ih =>
    have hb : b ≠ NL := fun h => hT (by simp [h])
    have hbs : NL ∉ bs := fun h => hT (by simp [h])
    have hne : (b != NL) = true := by simpa using hb
    simp [List.takeWhile, hne, ih hbs]

/-- C13: when a payload line completes a request on a socket whose writes
succeed and the server answers with a text `T` that has no newline, the
bytes the handler writes for it are the frame of `T`, and taking the bytes
before the first line terminator of what was written gives back exactly
`T`. -/
theorem C13_frame_round_trip {σ : Type} (d : ApiServer σ) (c : ApiLocalConnectionHandler σ)
    (L R T : List Byte) (hs : c.mState = State.WAITING_DATA)
    (hL : NL ∉ L) (hR : NL ∉ R) (hb : c.mLocalSocket.rbuf = L ++ NL :: R)
    (hw : c.mLocalSocket.wfail = [])
    (hres : (d.handleRequest c.mApiServer
      { path := c.reqPath, payload := cstr (L ++ [NL]) }).1 = T)
    (hT : NL ∉ T) :
    ∃ c1, handlePendingRequests d c = some c1 ∧
      c1.mLocalSocket.sent = c.mLocalSocket.sent ++ frame T ∧
      decodeFrame (c1.mLocalSocket.sent.drop c.mLocalSocket.sent.length) = T := by
  have hrun := handlePendingRequests_lines d [L] R c (by simpa using hL) hR
    (by simp [unlines, hb])
  have e : stepLines d (withRbuf c R) [L] = takeData d (withRbuf c R) (L ++ [NL]) := by
    simp [stepLines, stepLine, withRbuf, hs]
  rw [e] at hrun
  have hsent := (takeData_sent d (withRbuf c R) (L ++ [NL]) hw).1
  have hsent2 : (takeData d (withRbuf c R) (L ++ [NL])).mLocalSocket.sent =
      c.mLocalSocket.sent ++ frame T := by
    rw [hsent, ← hres]; rfl
  refine ⟨_, hrun, hsent2, ?_⟩
  rw [hsent2, List.drop_left]
  exact decodeFrame_frame T hT

/-- Witness of C13: the payload line `{}\n` answered with `{"ok":true}`. -/
theorem C13_frame_round_trip_witness :
    ∃ c1, handlePendingRequests okServer
        { mState := State.WAITING_DATA, reqPath := [97, 10],
          mLocalSocket := { rbuf := [123, 125, 10], sent := [], wfail := [] },
          mApiServer := (), trace := [Effect.readLine [97, 10]] } = some c1 ∧
      c1.mLocalSocket.sent =
        [] ++ frame [123, 34, 111, 107, 34, 58, 116, 114, 117, 101, 125] ∧
      decodeFrame (c1.mLocalSocket.sent.drop ([] : List Byte).length) =
        [123, 34, 111, 107, 34, 58, 116, 114, 117, 101, 125] :=
  C13_frame_round_trip okServer
    { mState := State.WAITING_DATA, reqPath := [97, 10],
      mLocalSocket := { rbuf := [123, 125, 10], sent := [], wfail := [] },
      mApiServer := (), trace := [Effect.readLine [97, 10]] }
    [123, 125] [] [123, 34, 111, 107, 34, 58, 116, 114, 117, 101, 125]
    rfl (by decide) (by decide) rfl rfl rfl (by decide)

theorem count_NL_unlines (ls : List (List Byte)) (r : List Byte)
    (hls : ∀ l ∈ ls, NL ∉ l) (hr : NL ∉ r) :
    (unlines ls ++ r).count NL = ls.length := by
  induction ls with
  | nil => simpa [unlines] using List.count_eq_zero.2 hr
  | cons l ls ih =>
    have hl : l.count NL = 0 := List.count_eq_zero.2 (hls l (by simp))
    have := ih (fun x hx => hls x (by simp [hx]))
    simp only [unlines, List.append_assoc, List.cons_append, List.count_append,
      List.count_cons_self, List.length_cons] at this ⊢
    omega

theorem length_unlines_ge (ls : List (List Byte)) (r : List Byte) :
    r.length + ls.length ≤ (unlines ls ++ r).length := by
  have := length_le_unlines ls
  simp only [List.length_append]
  omega

/-- The slot with its jumps limited handles the buffered complete lines as
soon as the limit exceeds their number. -/
theorem handlePendingRequestsWithin_lines {σ : Type} (d : ApiServer σ) (fuel : Nat)
    (ls : List (List Byte)) (r : List Byte) (c : ApiLocalConnectionHandler σ)
    (hls : ∀ l ∈ ls, NL ∉ l) (hr : NL ∉ r) (hb : c.mLocalSocket.rbuf = unlines ls ++ r)
    (hf : ls.length < fuel) :
    handlePendingRequestsWithin d fuel c = some (stepLines d (withRbuf c r) ls) := by
  cases hs : c.mState with
  | WAITING_DATA =>
    simp only [handlePendingRequestsWithin, hs]
    exact caseWaitingData_lines d _ ls r c hls hr hb hs hf
  | WAITING_PATH =>
    cases ls with
    | nil =>
      simp only [unlines, List.nil_append] at hb
      have hno : NL ∉ c.mLocalSocket.rbuf := by rw [hb]; exact hr
      have hcan : c.mLocalSocket.canReadLine = false := (canReadLine_false_iff _).2 hno
      obtain ⟨f, rfl⟩ : ∃ f, fuel = f + 1 := ⟨fuel - 1, by omega⟩
      simp only [handlePendingRequestsWithin, hs, hcan]
      rw [caseWaitingData_noLine d _ c hno]
      simp [stepLines, ← hb, withRbuf_self]
    | cons l1 ls =>
      have h1 : NL ∉ l1 := hls l1 (by simp)
      have hb1 : c.mLocalSocket.rbuf = l1 ++ NL :: (unlines ls ++ r) := by
        simpa [unlines] using hb
      have hcan : c.mLocalSocket.canReadLine = true := (canReadLine_iff _).2 (by simp [hb1])
      have hrp := readPath_eq c l1 _ h1 hb1
      simp only [handlePendingRequestsWithin, hs, hcan, if_true]
      rw [caseWaitingData_lines d _ ls r (readPath c) (fun l hl => hls l (by simp [hl])) hr
        (by rw [hrp]; rfl) (by rw [hrp]; rfl) (by simp at hf; omega)]
      rw [hrp]
      simp only [takePath_withRbuf, withRbuf_withRbuf]
      simp [stepLines, stepLine, hs, withRbuf]

/-- C14: `handlePendingRequests` returns for every state and every buffer.
It returns the same handler when the `goto readPath` jumps are limited to the
number of newline bytes in the buffer at entry, so that number bounds the
traversals of the loop; the lines read are as many as those newline bytes,
and each takes at least one byte off the buffer. -/
theorem C14_terminates {σ : Type} (d : ApiServer σ) (c : ApiLocalConnectionHandler σ) :
    ∃ c1, handlePendingRequests d c = some c1 ∧
      (∀ fuel, c.mLocalSocket.rbuf.count NL < fuel →
        handlePendingRequestsWithin d fuel c = some c1) ∧
      (linesRead c1.trace).length =
        (linesRead c.trace).length + c.mLocalSocket.rbuf.count NL ∧
      c1.mLocalSocket.rbuf.length + c.mLocalSocket.rbuf.count NL ≤
        c.mLocalSocket.rbuf.length := by
  obtain ⟨ls, r, hls, hr, hb⟩ := exists_lines c.mLocalSocket.rbuf
  have hcount : c.mLocalSocket.rbuf.count NL = ls.length := by
    rw [hb]; exact count_NL_unlines ls r hls hr
  refine ⟨_, handlePendingRequests_lines d ls r c hls hr hb, ?_, ?_, ?_⟩
  · intro fuel hf
    exact handlePendingRequestsWithin_lines d fuel ls r c hls hr hb (by omega)
  · rw [linesRead_stepLines, hcount]
    simp [withRbuf]
  · rw [stepLines_rbuf, hcount]
    have := length_unlines_ge ls r
    rw [← hb] at this
    simpa [withRbuf] using this

theorem resultWrites_append (xs ys : List Effect) :
    resultWrites (xs ++ ys) = resultWrites xs + resultWrites ys := by
  induction xs with
  | nil => simp [resultWrites]
  | cons e es ih =>
    cases e <;> simp [resultWrites, ih]
    omega

theorem terminatorWrites_append (xs ys : List Effect) :
    terminatorWrites (xs ++ ys) = terminatorWrites xs + terminatorWrites ys := by
  induction xs with
  | nil => simp [terminatorWrites]
  | cons e es ih =>
    cases e <;> simp [terminatorWrites, ih]
    omega

theorem parityInv_stepLine {σ : Type} (d : ApiServer σ) (c : ApiLocalConnectionHandler σ)
    (line : List Byte) (h : parityInv c) : parityInv (stepLine d c line) := by
  obtain ⟨h1, h2, h3, h4⟩ := h
  unfold stepLine
  cases hs : c.mState with
  | WAITING_PATH =>
    have heven : (linesRead c.trace).length % 2 = 0 := by
      have : ¬ (linesRead c.trace).length % 2 = 1 := fun h => by
        have := h1.2 h
        rw [hs] at this
        cases this
      omega
    refine ⟨?_, ?_, ?_, ?_⟩
    · simp [takePath, linesRead_append, linesRead]; omega
    · simp [takePath, linesRead_append, linesRead, calls_append, calls, h2]; omega
    · simp [takePath, linesRead_append, linesRead, resultWrites_append, resultWrites, h3]; omega
    · simp [takePath, linesRead_append, linesRead, terminatorWrites_append, terminatorWrites,
        h4]; omega
  | WAITING_DATA =>
    have hodd : (linesRead c.trace).length % 2 = 1 := h1.1 hs
    refine ⟨?_, ?_, ?_, ?_⟩
    · simp [takeData, linesRead_append, linesRead]; omega
    · simp [takeData, linesRead_append, linesRead, calls_append, calls, h2]; omega
    · simp [takeData, linesRead_append, linesRead, resultWrites_append, resultWrites, h3]; omega
    · simp [takeData, linesRead_append, linesRead, terminatorWrites_append, terminatorWrites,
        h4]; omega

theorem parityInv_stepLines {σ : Type} (d : ApiServer σ) (ls : List (List Byte)) :
    ∀ c : ApiLocalConnectionHandler σ, parityInv c → parityInv (stepLines d c ls) := by
  induction ls with
  | nil => intro c h; exact h
  | cons l ls ih => intro c h; exact ih _ (parityInv_stepLine d c _ h)

/-- C15: after any sequence of deliveries to a fresh connection, hence
after each invocation of `handlePendingRequests`, the state is `WAITING_DATA`
exactly when the number of complete lines received so far is odd, and the
server calls, the writes of a result and the writes of a terminator each
number half of those lines, rounded down. -/
theorem C15_parity {σ : Type} (d : ApiServer σ) (api : σ) (wfail : List Bool)
    (chunks : List (List Byte)) :
    ∃ c1, deliverAll d (ApiLocalConnectionHandler.new api wfail) chunks = some c1 ∧
      (c1.mState = State.WAITING_DATA ↔ chunks.flatten.count NL % 2 = 1) ∧
      (c1.mState = State.WAITING_PATH ↔ chunks.flatten.count NL % 2 = 0) ∧
      (calls c1.trace).length = chunks.flatten.count NL / 2 ∧
      resultWrites c1.trace = chunks.flatten.count NL / 2 ∧
      terminatorWrites c1.trace = chunks.flatten.count NL / 2 := by
  obtain ⟨ls, r, hls, hr, hb⟩ := exists_lines chunks.flatten
  have hcount : chunks.flatten.count NL = ls.length := by
    rw [hb]; exact count_NL_unlines ls r hls hr
  have hinv := parityInv_stepLines d ls (withRbuf (ApiLocalConnectionHandler.new api wfail) r)
    (by simp [parityInv, withRbuf, ApiLocalConnectionHandler.new, linesRead, calls,
          resultWrites, terminatorWrites])
  have hlen : (linesRead (stepLines d
      (withRbuf (ApiLocalConnectionHandler.new api wfail) r) ls).trace).length = ls.length := by
    rw [linesRead_stepLines]
    simp [withRbuf, ApiLocalConnectionHandler.new, linesRead]
  obtain ⟨h1, h2, h3, h4⟩ := hinv
  rw [hlen] at h1 h2 h3 h4
  refine ⟨_, deliverAll_new d api wfail chunks ls r hls hr hb, ?_, ?_, ?_, ?_, ?_⟩
  · rw [hcount]; exact h1
  · rw [hcount]
    constructor
    · intro hp
      have : ¬ ls.length % 2 = 1 := fun h => by
        have := h1.2 h
        rw [hp] at this
        cases this
      omega
    · intro he
      cases hst : (stepLines d (withRbuf (ApiLocalConnectionHandler.new api wfail) r) ls).mState
        with
      | WAITING_PATH => rfl
      | WAITING_DATA =>
        have := h1.1 hst
        omega
  · rw [hcount]; exact h2
  · rw [hcount]; exact h3
  · rw [hcount]; exact h4

theorem cstr_append_NUL (A B : List Byte) (hA : NUL ∉ A) : cstr (A ++ NUL :: B) = A := by
  unfold cstr
  induction A with
  | nil => simp [List.takeWhile]
  | cons b bs ih =>
    have hb : b ≠ NUL := fun h => hA (by simp [h])
    have hbs : NUL ∉ bs := fun h => hA (by simp [h])
    have hne : (b != NUL) = true := by simpa using hb
    simp [List.takeWhile, hne, ih hbs]

/-- C16: a path line and a payload line are each read whole from the
buffer, newline included, whatever bytes they hold, and each reaches the
server as a zero-terminated string: a line with a NUL byte is cut before its
first NUL byte, a line without one is passed as `readLine` returned it. -/
theorem C16_NUL_truncation {σ : Type} (d : ApiServer σ) (c : ApiLocalConnectionHandler σ)
    (P J : List Byte) (hs : c.mState = State.WAITING_PATH)
    (hP : NL ∉ P) (hJ : NL ∉ J)
    (hb : c.mLocalSocket.rbuf = P ++ NL :: (J ++ [NL])) :
    ∃ c1 req res, handlePendingRequests d c = some c1 ∧
      c1.mLocalSocket.rbuf = [] ∧
      c1.trace = c.trace ++
        [Effect.readLine (P ++ [NL]), Effect.readLine (J ++ [NL]),
         Effect.handleRequest req res, Effect.write res, Effect.writeCStr [NL, NUL]] ∧
      (∀ A B, NUL ∉ A → P = A ++ NUL :: B → req.path = A) ∧
      (∀ A B, NUL ∉ A → J = A ++ NUL :: B → req.payload = A) ∧
      (NUL ∉ P → req.path = P ++ [NL]) ∧
      (NUL ∉ J → req.payload = J ++ [NL]) := by
  have hrun := handlePendingRequests_lines d [P, J] [] c (by
    intro l hl
    simp only [List.mem_cons, List.mem_singleton, List.not_mem_nil, or_false] at hl
    rcases hl with h | h <;> subst h <;> assumption) (by simp) (by simp [hb, unlines])
  refine ⟨_, { path := cstr (P ++ [NL]), payload := cstr (J ++ [NL]) },
    (d.handleRequest c.mApiServer { path := cstr (P ++ [NL]), payload := cstr (J ++ [NL]) }).1,
    hrun, ?_, ?_, ?_, ?_, ?_, ?_⟩
  · rw [stepLines_rbuf]; rfl
  · simp [stepLines, stepLine, takePath, takeData, withRbuf, hs]
  · intro A B hA hPA
    show cstr (P ++ [NL]) = A
    rw [hPA, List.append_assoc, List.cons_append]
    exact cstr_append_NUL A _ hA
  · intro A B hA hJA
    show cstr (J ++ [NL]) = A
    rw [hJA, List.append_assoc, List.cons_append]
    exact cstr_append_NUL A _ hA
  · intro h0
    exact cstr_of_not_mem _ (by simp [h0, Ne.symm NL_ne_NUL])
  · intro h0
    exact cstr_of_not_mem _ (by simp [h0, Ne.symm NL_ne_NUL])

/-- Witness of C16: the path line `a\0b\n` and the payload line `{}\n`. -/
theorem C16_NUL_truncation_witness :
    ∃ c1 req res, handlePendingRequests echoPath
        (receive (ApiLocalConnectionHandler.new () []) [97, 0, 98, 10, 123, 125, 10]) = some c1 ∧
      c1.mLocalSocket.rbuf = [] ∧
      c1.trace =
        (receive (ApiLocalConnectionHandler.new () []) [97, 0, 98, 10, 123, 125, 10]).trace ++
        [Effect.readLine ([97, 0, 98] ++ [NL]), Effect.readLine ([123, 125] ++ [NL]),
         Effect.handleRequest req res, Effect.write res, Effect.writeCStr [NL, NUL]] ∧
      (∀ A B, NUL ∉ A → ([97, 0, 98] : List Byte) = A ++ NUL :: B → req.path = A) ∧
      (∀ A B, NUL ∉ A → ([123, 125] : List Byte) = A ++ NUL :: B → req.payload = A) ∧
      (NUL ∉ ([97, 0, 98] : List Byte) → req.path = [97, 0, 98] ++ [NL]) ∧
      (NUL ∉ ([123, 125] : List Byte) → req.payload = [123, 125] ++ [NL]) :=
  C16_NUL_truncation echoPath
    (receive (ApiLocalConnectionHandler.new () []) [97, 0, 98, 10, 123, 125, 10])
    [97, 0, 98] [123, 125] rfl (by decide) (by decide) (by decide)

/-- The lines `a\0b\n` and `{}\n` at work: both are read whole, and the
request carries the path `a` and the payload `{}\n`. -/
theorem NUL_truncation_example :
    (handlePendingRequests echoPath
        (receive (ApiLocalConnectionHandler.new () []) [97, 0, 98, 10, 123, 125, 10])).map
        (fun c => (linesRead c.trace, calls c.trace, c.mLocalSocket.rbuf))
      = some ([[97, 0, 98, 10], [123, 125, 10]],
              [{ path := [97], payload := [123, 125, 10] }], []) := by
  decide

end resource_api
